import Mathlib

/-!
Shallow embedding of function_app.py from microsoft/apt-package-function:
an Azure function app maintaining a Debian APT repository in blob storage.

The blob store is modelled as an association list from object names to
blobs, in enumeration order; uploads with overwrite replace an existing
entry in place or append a new one.  The external collaborators pydpkg
(control/digest extraction) and lzma (compression) are modelled as
function parameters: an extractor returning the fields the code reads
from pydpkg.Dpkg, and a compressor on byte buffers (represented here by
String, a sequence of characters standing for a byte sequence).
-/

/-- Python str.endswith, used for the .deb / .package name filters. -/
def strEndsWith (s suf : String) : Bool := decide (suf.data <:+ s.data)

/-- Characters stripped by Python str.rstrip() with no arguments. -/
def pyIsSpace (c : Char) : Bool :=
  c == ' ' || c == '\t' || c == '\n' || c == '\r' || c == '\x0b' || c == '\x0c'

/-- Python str.rstrip(): remove trailing whitespace characters. -/
def pyRstrip (s : String) : String := ⟨(s.data.reverse.dropWhile pyIsSpace).reverse⟩

/-- Helper for pathlib Path.with_suffix: given the reversed character list of
a path, return the reversed stem with the final extension removed, or none
when the last path component has no extension (no dot, leading dot only). -/
def findExtRev : List Char → Option (List Char)
  | [] => none
  | c :: rest =>
    if c = '/' then none
    else if c = '.' then
      match rest with
      | [] => none
      | d :: _ => if d = '/' then none else some rest
    else findExtRev rest

/-- Python pathlib Path.with_suffix: replace the extension of the final path
component by the given suffix (append it when there is no extension).
Mirrors self.path.with_suffix(".package") in PackageBlob. -/
def withSuffix (nm suf : String) : String :=
  match findExtRev nm.data.reverse with
  | some stemRev => ⟨stemRev.reverse ++ suf.data⟩
  | none => ⟨nm.data ++ suf.data⟩

/-- The fields the code reads from pydpkg.Dpkg: control-file text, the three
digests of the whole package file, and its byte size. -/
structure ControlInfo where
  controlStr : String
  md5 : String
  sha1 : String
  sha256 : String
  filesize : Nat
deriving DecidableEq

/-- One stored object: its content bytes, the store-assigned last-modified
value (as the string the SDK reports), and its metadata key/value pairs. -/
structure Blob where
  content : String
  lastModified : String
  metadata : List (String × String)
deriving DecidableEq

/-- The container state: named blobs in enumeration order. -/
abbrev Store := List (String × Blob)

/-- Error taxonomy: pydpkg failing to parse an artifact, or a store
operation failing (missing blob on download / property read). -/
inductive RepoError where
  | corruptPackage
  | storeError
deriving DecidableEq

/-- Look up a blob by name (first match). -/
def Store.get? : Store → String → Option Blob
  | [], _ => none
  | (m, b) :: rest, n => if m = n then some b else Store.get? rest n

/-- BlobClient.exists(). -/
def Store.existsB (s : Store) (n : String) : Bool := (s.get? n).isSome

/-- upload_blob with overwrite=True: replace the entry in place, or append
a new entry at the end of the enumeration. -/
def Store.upload : Store → String → Blob → Store
  | [], n, b => [(n, b)]
  | (m, c) :: rest, n, b =>
    if m = n then (n, b) :: rest else (m, c) :: Store.upload rest n b

/-- The names returned by container_client.list_blobs(), in order. -/
def blobNames (s : Store) : List String := s.map (fun p => p.1)

/-- The package artifacts the Scanner iterates over. -/
def debNames (s : Store) : List String :=
  (blobNames s).filter (fun n => strEndsWith n ".deb")

/-- The metadata records the Assembler iterates over. -/
def metaNames (s : Store) : List String :=
  (blobNames s).filter (fun n => strEndsWith n ".package")

/-- Python dict lookup on blob metadata. -/
def lookupMeta : List (String × String) → String → Option String
  | [], _ => none
  | (k, v) :: rest, key => if k = key then some v else lookupMeta rest key

/-- The metadata key used on metadata blobs. -/
def DEB_CHECK_KEY : String := "DebLastModified"

/-- The body PackageBlob.create_metadata uploads: the control text with
trailing whitespace stripped, the five synthesized fields, and a blank
line (two trailing newlines). -/
def recordBody (path : String) (ci : ControlInfo) : String :=
  pyRstrip ci.controlStr ++ "\nFilename: " ++ path ++ "\nMD5sum: " ++ ci.md5 ++
    "\nSHA1: " ++ ci.sha1 ++ "\nSHA256: " ++ ci.sha256 ++
    "\nSize: " ++ toString ci.filesize ++ "\n\n"

/-- PackageBlob.create_metadata: download the package, run the extractor,
format the record body, and upload it to the .package path tagged with
the package's last-modified value, overwriting any prior record.
The second component of a successful result is the list of names written
(write-operation log, used to state frame properties). -/
def createMetadata (ext : String → Except Unit ControlInfo) (s : Store) (name : String) :
    Except RepoError (Store × List String) :=
  match s.get? name with
  | none => .error .storeError
  | some pkg =>
    match ext pkg.content with
    | .error _ => .error .corruptPackage
    | .ok ci =>
      .ok (s.upload (withSuffix name ".package")
            ⟨recordBody name ci, "", [(DEB_CHECK_KEY, pkg.lastModified)]⟩,
          [withSuffix name ".package"])

/-- PackageBlob construction followed by check(): read the package's
properties (failing when it is gone), then recreate the metadata record
when it is absent, lacks the DebLastModified key, or carries a value
different from the package's last-modified value; otherwise do nothing. -/
def check (ext : String → Except Unit ControlInfo) (s : Store) (name : String) :
    Except RepoError (Store × List String) :=
  match s.get? name with
  | none => .error .storeError
  | some pkg =>
    match s.get? (withSuffix name ".package") with
    | none => createMetadata ext s name
    | some mb =>
      match lookupMeta mb.metadata DEB_CHECK_KEY with
      | none => createMetadata ext s name
      | some v =>
        if pkg.lastModified ≠ v then createMetadata ext s name else .ok (s, [])

/-- The Scanner's loop body over the listed names: check each in turn,
propagating any error (there is no per-package handler in the source). -/
def checkList (ext : String → Except Unit ControlInfo) :
    Store → List String → Except RepoError (Store × List String)
  | s, [] => .ok (s, [])
  | s, n :: rest =>
    match check ext s n with
    | .error e => .error e
    | .ok (s1, w1) =>
      match checkList ext s1 rest with
      | .error e => .error e
      | .ok (s2, w2) => .ok (s2, w1 ++ w2)

/-- RepoManager.check_metadata: list all blobs and check every one whose
name ends with ".deb". -/
def check_metadata (ext : String → Except Unit ControlInfo) (s : Store) :
    Except RepoError (Store × List String) :=
  checkList ext s (debNames s)

/-- Concatenation of a list of buffers, in order. -/
def concatAll : List String → String
  | [] => ""
  | a :: l => a ++ concatAll l

/-- The Assembler's download loop: read each listed blob into the shared
buffer in enumeration order; a missing blob is a fatal store error. -/
def downloadAll (s : Store) : List String → Except RepoError String
  | [] => .ok ""
  | n :: rest =>
    match s.get? n with
    | none => .error .storeError
    | some b =>
      match downloadAll s rest with
      | .error e => .error e
      | .ok tail => .ok (b.content ++ tail)

/-- RepoManager.create_packages: concatenate the contents of every blob
whose name ends with ".package" in enumeration order, upload the buffer
as "Packages" (overwrite) and its compression as "Packages.xz" (overwrite). -/
def create_packages (compress : String → String) (s : Store) :
    Except RepoError (Store × List String) :=
  match downloadAll s (metaNames s) with
  | .error e => .error e
  | .ok buf =>
    .ok (((s.upload "Packages" ⟨buf, "", []⟩).upload
            "Packages.xz" ⟨compress buf, "", []⟩),
         ["Packages", "Packages.xz"])

/-- The full maintenance pass both triggers perform: Scanner over the whole
container, then Assembler over the whole container. -/
def runMaintenance (ext : String → Except Unit ControlInfo)
    (compress : String → String) (s : Store) :
    Except RepoError (Store × List String) :=
  match check_metadata ext s with
  | .error e => .error e
  | .ok (s1, w1) =>
    match create_packages compress s1 with
    | .error e => .error e
    | .ok (s2, w2) => .ok (s2, w1 ++ w2)

/-- blob_trigger: no-op when the triggering name is missing, empty, or does
not end with ".deb"; otherwise run the Scanner then the Assembler over the
whole container.  The name itself is passed to neither. -/
def blob_trigger (ext : String → Except Unit ControlInfo)
    (compress : String → String) (s : Store) :
    Option String → Except RepoError (Store × List String)
  | none => .ok (s, [])
  | some n =>
    if n = "" then .ok (s, [])
    else if strEndsWith n ".deb" then
      match check_metadata ext s with
      | .error e => .error e
      | .ok (s1, w1) =>
        match create_packages compress s1 with
        | .error e => .error e
        | .ok (s2, w2) => .ok (s2, w1 ++ w2)
    else .ok (s, [])

/-- eventGridTrigger: the event id is only logged; the same Scanner-then-
Assembler pass runs unconditionally. -/
def eventGridTrigger (ext : String → Except Unit ControlInfo)
    (compress : String → String) (s : Store) (eventId : String) :
    Except RepoError (Store × List String) :=
  match check_metadata ext s with
  | .error e => .error e
  | .ok (s1, w1) =>
    match create_packages compress s1 with
    | .error e => .error e
    | .ok (s2, w2) => .ok (s2, w1 ++ w2)

/-- The spec's recompute condition, in its words: the record is absent,
lacks the DebLastModified tag, or carries a tag value that differs by
exact string equality from the artifact's last-modified value. -/
def needsRecompute (s : Store) (name : String) (pkg : Blob) : Bool :=
  match s.get? (withSuffix name ".package") with
  | none => true
  | some mb =>
    match lookupMeta mb.metadata DEB_CHECK_KEY with
    | none => true
    | some v => decide (pkg.lastModified ≠ v)

/-- The spec's index buffer, in its words: the concatenation, in store
enumeration order, of the contents of every object whose name ends with
the metadata extension. -/
def specIndexBuffer (s : Store) : String :=
  concatAll ((s.filter (fun p => strEndsWith p.1 ".package")).map
    (fun p => p.2.content))

/- Concrete data used to evaluate the development on closed inputs. -/

/-- A concrete extractor result. -/
def ci0 : ControlInfo := ⟨"Package: foo\nVersion: 1.0", "m5", "h1", "h256", 3⟩

/-- A concrete extractor: fails exactly on the content "CORRUPT". -/
def ext0 : String → Except Unit ControlInfo :=
  fun c => if c = "CORRUPT" then .error () else .ok ci0

/-- A concrete well-formed package blob. -/
def pkgA : Blob := ⟨"rawbytes", "2024-01-01 00:00:00+00:00", []⟩

/-- A store with one package and no metadata record. -/
def store1 : Store := [("a.deb", pkgA)]

/-- The store produced by a successful check on store1. -/
def store1b : Store :=
  Store.upload store1 "a.package"
    ⟨recordBody "a.deb" ci0, "", [(DEB_CHECK_KEY, pkgA.lastModified)]⟩

/-- A store whose first package is corrupt and whose second is fine,
neither having a metadata record. -/
def storeC : Store :=
  [("a.deb", ⟨"CORRUPT", "t1", []⟩), ("b.deb", ⟨"ok", "t2", []⟩)]

/-- A store whose metadata record exists but carries a stale tag value. -/
def store1s : Store :=
  [("a.deb", pkgA),
   ("a.package", ⟨"old body", "", [(DEB_CHECK_KEY, "1999-01-01 00:00:00+00:00")]⟩)]

/-- A store holding only an orphaned metadata record: its owning package
has been deleted. -/
def storeO : Store := [("orphan.package", ⟨"Stanza\n\n", "", []⟩)]

/- Store lemmas -/

theorem strEndsWith_iff {s suf : String} :
    strEndsWith s suf = true ↔ suf.data <:+ s.data := by
  simp [strEndsWith]

theorem blobNames_cons (m : String) (c : Blob) (rest : Store) :
    blobNames ((m, c) :: rest) = m :: blobNames rest := rfl

theorem get?_upload_eq (s : Store) (n : String) (b : Blob) :
    (s.upload n b).get? n = some b := by
  induction s with
  | nil => simp [Store.upload, Store.get?]
  | cons p rest ih =>
    obtain ⟨m, c⟩ := p
    by_cases h : m = n
    · simp [Store.upload, h, Store.get?]
    · simp [Store.upload, h, Store.get?, ih]

theorem get?_upload_ne (s : Store) (n q : String) (b : Blob) (h : q ≠ n) :
    (s.upload n b).get? q = s.get? q := by
  have hnq : ¬n = q := fun hh => h hh.symm
  induction s with
  | nil => simp [Store.upload, Store.get?, hnq]
  | cons p rest ih =>
    obtain ⟨m, c⟩ := p
    by_cases hm : m = n
    · have hmq : ¬m = q := by rw [hm]; exact hnq
      simp [Store.upload, hm, Store.get?, hnq, hmq]
    · by_cases hq : m = q
      · simp [Store.upload, hm, Store.get?, hq, h]
      · simp [Store.upload, hm, Store.get?, hq, ih]

theorem existsB_upload (s : Store) (n q : String) (b : Blob)
    (h : s.existsB q = true) : (s.upload n b).existsB q = true := by
  by_cases hq : q = n
  · subst hq
    simp [Store.existsB, get?_upload_eq]
  · simpa [Store.existsB, get?_upload_ne s n q b hq] using h

theorem get?_isSome_of_mem (s : Store) (n : String) (h : n ∈ blobNames s) :
    ∃ b, s.get? n = some b := by
  induction s with
  | nil => simp [blobNames] at h
  | cons p rest ih =>
    obtain ⟨m, c⟩ := p
    by_cases hm : m = n
    · exact ⟨c, by simp [Store.get?, hm]⟩
    · rw [blobNames_cons] at h
      rcases List.mem_cons.mp h with h2 | h2
      · exact absurd h2.symm hm
      · obtain ⟨b, hb⟩ := ih h2
        exact ⟨b, by simp [Store.get?, hm, hb]⟩

theorem mem_blobNames_of_get? (s : Store) (n : String) (b : Blob)
    (h : s.get? n = some b) : n ∈ blobNames s := by
  induction s with
  | nil => simp [Store.get?] at h
  | cons p rest ih =>
    obtain ⟨m, c⟩ := p
    rw [blobNames_cons]
    by_cases hm : m = n
    · exact hm ▸ List.mem_cons_self m _
    · simp only [Store.get?, if_neg hm] at h
      exact List.mem_cons_of_mem m (ih h)

/- Path lemmas -/

theorem withSuffix_data (nm suf : String) :
    ∃ stem, (withSuffix nm suf).data = stem ++ suf.data := by
  unfold withSuffix
  cases h : findExtRev nm.data.reverse with
  | none => exact ⟨nm.data, rfl⟩
  | some stemRev => exact ⟨stemRev.reverse, rfl⟩

theorem withSuffix_endsWith (nm suf : String) :
    strEndsWith (withSuffix nm suf) suf = true := by
  obtain ⟨stem, hstem⟩ := withSuffix_data nm suf
  rw [strEndsWith_iff, hstem]
  exact List.suffix_append stem suf.data

theorem metaPath_ne (nm : String) (hdeb : strEndsWith nm ".deb" = true) :
    withSuffix nm ".package" ≠ nm := by
  intro heq
  have h1 : (".package" : String).data <:+ nm.data := by
    rw [← heq]
    exact strEndsWith_iff.mp (withSuffix_endsWith nm ".package")
  have h2 : (".deb" : String).data <:+ nm.data := strEndsWith_iff.mp hdeb
  rcases List.suffix_or_suffix_of_suffix h1 h2 with h3 | h3
  · exact absurd h3 (by decide)
  · exact absurd h3 (by decide)

theorem metaPath_not_deb (nm : String) :
    strEndsWith (withSuffix nm ".package") ".deb" = false := by
  by_contra hne
  have hp : strEndsWith (withSuffix nm ".package") ".deb" = true := by
    cases h : strEndsWith (withSuffix nm ".package") ".deb"
    · exact absurd h hne
    · rfl
  have h1 : (".deb" : String).data <:+ (withSuffix nm ".package").data :=
    strEndsWith_iff.mp hp
  have h2 : (".package" : String).data <:+ (withSuffix nm ".package").data :=
    strEndsWith_iff.mp (withSuffix_endsWith nm ".package")
  rcases List.suffix_or_suffix_of_suffix h1 h2 with h3 | h3
  · exact absurd h3 (by decide)
  · exact absurd h3 (by decide)

/- check analysis lemmas -/

theorem check_of_recompute (ext : String → Except Unit ControlInfo)
    (s : Store) (name : String) (pkg : Blob)
    (hp : s.get? name = some pkg)
    (hr : needsRecompute s name pkg = true) :
    check ext s name = createMetadata ext s name := by
  unfold check
  unfold needsRecompute at hr
  simp only [hp]
  cases hm : s.get? (withSuffix name ".package") with
  | none => simp
  | some mb =>
    rw [hm] at hr
    simp only at hr ⊢
    cases hl : lookupMeta mb.metadata DEB_CHECK_KEY with
    | none => simp
    | some v =>
      rw [hl] at hr
      simp only at hr ⊢
      rw [if_pos (by simpa using hr)]

theorem check_of_valid (ext : String → Except Unit ControlInfo)
    (s : Store) (name : String) (pkg : Blob)
    (hp : s.get? name = some pkg)
    (hr : needsRecompute s name pkg = false) :
    check ext s name = .ok (s, []) := by
  unfold check
  unfold needsRecompute at hr
  simp only [hp]
  cases hm : s.get? (withSuffix name ".package") with
  | none => rw [hm] at hr; simp at hr
  | some mb =>
    rw [hm] at hr
    simp only at hr ⊢
    cases hl : lookupMeta mb.metadata DEB_CHECK_KEY with
    | none => rw [hl] at hr; simp at hr
    | some v =>
      rw [hl] at hr
      simp only at hr ⊢
      rw [if_neg (by simpa using hr)]

theorem valid_of_not_recompute (s : Store) (name : String) (pkg : Blob)
    (h : needsRecompute s name pkg = false) :
    ∃ mb, s.get? (withSuffix name ".package") = some mb ∧
      lookupMeta mb.metadata DEB_CHECK_KEY = some pkg.lastModified := by
  unfold needsRecompute at h
  cases hm : s.get? (withSuffix name ".package") with
  | none => rw [hm] at h; simp at h
  | some mb =>
    rw [hm] at h
    simp only at h
    cases hl : lookupMeta mb.metadata DEB_CHECK_KEY with
    | none => rw [hl] at h; simp at h
    | some v =>
      rw [hl] at h
      simp only at h
      have hv : pkg.lastModified = v := by simpa using h
      exact ⟨mb, rfl, by rw [hl, hv]⟩

theorem not_recompute_of_valid (s : Store) (name : String) (pkg mb : Blob)
    (hm : s.get? (withSuffix name ".package") = some mb)
    (hl : lookupMeta mb.metadata DEB_CHECK_KEY = some pkg.lastModified) :
    needsRecompute s name pkg = false := by
  unfold needsRecompute
  simp only [hm, hl]
  simp

theorem createMetadata_eq (ext : String → Except Unit ControlInfo)
    (s : Store) (name : String) (pkg : Blob)
    (hp : s.get? name = some pkg) :
    createMetadata ext s name =
      (match ext pkg.content with
       | .error _ => .error .corruptPackage
       | .ok ci =>
         .ok (s.upload (withSuffix name ".package")
               ⟨recordBody name ci, "", [(DEB_CHECK_KEY, pkg.lastModified)]⟩,
             [withSuffix name ".package"])) := by
  unfold createMetadata
  simp only [hp]

theorem check_ok_cases (ext : String → Except Unit ControlInfo)
    (s : Store) (name : String) (pkg : Blob) (s1 : Store) (w1 : List String)
    (hp : s.get? name = some pkg)
    (h : check ext s name = .ok (s1, w1)) :
    (s1 = s ∧ w1 = [] ∧ needsRecompute s name pkg = false) ∨
    (∃ ci, ext pkg.content = .ok ci ∧
      s1 = s.upload (withSuffix name ".package")
        ⟨recordBody name ci, "", [(DEB_CHECK_KEY, pkg.lastModified)]⟩ ∧
      w1 = [withSuffix name ".package"] ∧ needsRecompute s name pkg = true) := by
  by_cases hr : needsRecompute s name pkg = true
  · right
    rw [check_of_recompute ext s name pkg hp hr,
        createMetadata_eq ext s name pkg hp] at h
    cases he : ext pkg.content with
    | error u => rw [he] at h; simp at h
    | ok ci =>
      rw [he] at h
      simp only at h
      simp only [Except.ok.injEq, Prod.mk.injEq] at h
      exact ⟨ci, rfl, h.1.symm, h.2.symm, hr⟩
  · left
    have hr2 : needsRecompute s name pkg = false := by
      cases hq : needsRecompute s name pkg
      · rfl
      · exact absurd hq hr
    rw [check_of_valid ext s name pkg hp hr2] at h
    simp only [Except.ok.injEq, Prod.mk.injEq] at h
    exact ⟨h.1.symm, h.2.symm, hr2⟩

theorem check_ok_valid (ext : String → Except Unit ControlInfo)
    (s : Store) (name : String) (pkg : Blob) (s1 : Store) (w1 : List String)
    (hdeb : strEndsWith name ".deb" = true)
    (hp : s.get? name = some pkg)
    (h : check ext s name = .ok (s1, w1)) :
    s1.get? name = some pkg ∧
    ∃ mb, s1.get? (withSuffix name ".package") = some mb ∧
      lookupMeta mb.metadata DEB_CHECK_KEY = some pkg.lastModified := by
  rcases check_ok_cases ext s name pkg s1 w1 hp h with
    ⟨hs, _, hr⟩ | ⟨ci, hci, hs, hw, hr⟩
  · rw [hs]
    exact ⟨hp, valid_of_not_recompute s name pkg hr⟩
  · subst hs
    constructor
    · rw [get?_upload_ne s (withSuffix name ".package") name _
        (Ne.symm (metaPath_ne name hdeb))]
      exact hp
    · exact ⟨_, get?_upload_eq s (withSuffix name ".package") _,
        by simp [lookupMeta]⟩

/- Scanner lemmas -/

theorem check_ok_get (ext : String → Except Unit ControlInfo)
    (s : Store) (name : String) (s1 : Store) (w1 : List String)
    (h : check ext s name = .ok (s1, w1)) :
    ∃ pkg, s.get? name = some pkg := by
  unfold check at h
  cases hp : s.get? name with
  | none => rw [hp] at h; simp at h
  | some pkg => exact ⟨pkg, rfl⟩

theorem check_preserves_existsB (ext : String → Except Unit ControlInfo)
    (s : Store) (name : String) (s1 : Store) (w1 : List String) (q : String)
    (h : check ext s name = .ok (s1, w1))
    (he : s.existsB q = true) : s1.existsB q = true := by
  obtain ⟨pkg, hp⟩ := check_ok_get ext s name s1 w1 h
  rcases check_ok_cases ext s name pkg s1 w1 hp h with
    ⟨hs, _, _⟩ | ⟨ci, _, hs, _, _⟩
  · rw [hs]; exact he
  · rw [hs]; exact existsB_upload s _ q _ he

theorem check_preserves_get (ext : String → Except Unit ControlInfo)
    (s : Store) (name : String) (s1 : Store) (w1 : List String) (q : String)
    (h : check ext s name = .ok (s1, w1))
    (hq : withSuffix name ".package" ≠ q) : s1.get? q = s.get? q := by
  obtain ⟨pkg, hp⟩ := check_ok_get ext s name s1 w1 h
  rcases check_ok_cases ext s name pkg s1 w1 hp h with
    ⟨hs, _, _⟩ | ⟨ci, _, hs, _, _⟩
  · rw [hs]
  · rw [hs]
    exact get?_upload_ne s _ q _ (Ne.symm hq)

theorem checkList_error_head (ext : String → Except Unit ControlInfo)
    (s : Store) (n : String) (rest : List String) (e : RepoError)
    (h : check ext s n = .error e) :
    checkList ext s (n :: rest) = .error e := by
  unfold checkList
  rw [h]

theorem checkList_preserves_existsB (ext : String → Except Unit ControlInfo) :
    ∀ (ns : List String) (s s1 : Store) (w : List String) (q : String),
    checkList ext s ns = .ok (s1, w) → s.existsB q = true → s1.existsB q = true := by
  intro ns
  induction ns with
  | nil =>
    intro s s1 w q h he
    unfold checkList at h
    simp only [Except.ok.injEq, Prod.mk.injEq] at h
    rw [← h.1]
    exact he
  | cons n rest ih =>
    intro s s1 w q h he
    unfold checkList at h
    cases hc : check ext s n with
    | error e => rw [hc] at h; simp at h
    | ok p =>
      obtain ⟨sm, wm⟩ := p
      rw [hc] at h
      simp only at h
      cases hcl : checkList ext sm rest with
      | error e => rw [hcl] at h; simp at h
      | ok p2 =>
        obtain ⟨s2, w2⟩ := p2
        rw [hcl] at h
        simp only [Except.ok.injEq, Prod.mk.injEq] at h
        rw [← h.1]
        exact ih sm s2 w2 q hcl
          (check_preserves_existsB ext s n sm wm q hc he)

theorem checkList_preserves_get (ext : String → Except Unit ControlInfo) :
    ∀ (ns : List String) (s s1 : Store) (w : List String) (q : String),
    checkList ext s ns = .ok (s1, w) →
    (∀ n ∈ ns, withSuffix n ".package" ≠ q) → s1.get? q = s.get? q := by
  intro ns
  induction ns with
  | nil =>
    intro s s1 w q h _
    unfold checkList at h
    simp only [Except.ok.injEq, Prod.mk.injEq] at h
    rw [← h.1]
  | cons n rest ih =>
    intro s s1 w q h hq
    unfold checkList at h
    cases hc : check ext s n with
    | error e => rw [hc] at h; simp at h
    | ok p =>
      obtain ⟨sm, wm⟩ := p
      rw [hc] at h
      simp only at h
      cases hcl : checkList ext sm rest with
      | error e => rw [hcl] at h; simp at h
      | ok p2 =>
        obtain ⟨s2, w2⟩ := p2
        rw [hcl] at h
        simp only [Except.ok.injEq, Prod.mk.injEq] at h
        rw [← h.1]
        rw [ih sm s2 w2 q hcl (fun m hm => hq m (List.mem_cons_of_mem n hm))]
        exact check_preserves_get ext s n sm wm q hc (hq n (List.mem_cons_self n rest))

/- Assembler lemmas -/

theorem filter_names_eq (q : String → Bool) :
    ∀ s : Store, (blobNames s).filter q =
      (s.filter (fun p => q p.1)).map (fun p => p.1) := by
  intro s
  induction s with
  | nil => rfl
  | cons p rest ih =>
    obtain ⟨m, c⟩ := p
    by_cases hq : q m
    · simp [blobNames_cons, List.filter_cons, hq, ih]
    · simp only [blobNames_cons, List.filter_cons, hq]
      simpa [hq] using ih

theorem get?_of_nodup (s : Store) (hnd : (blobNames s).Nodup) :
    ∀ p ∈ s, s.get? p.1 = some p.2 := by
  induction s with
  | nil => intro p hp; simp at hp
  | cons hd rest ih =>
    obtain ⟨m, c⟩ := hd
    intro p hp
    rcases List.mem_cons.mp hp with h1 | h1
    · rw [h1]
      simp [Store.get?]
    · have hm : m ∉ blobNames rest := by
        rw [blobNames_cons] at hnd
        exact (List.nodup_cons.mp hnd).1
      have hne : m ≠ p.1 := by
        intro heq
        exact hm (heq ▸ mem_blobNames_of_get? rest p.1 p.2
          (ih (by rw [blobNames_cons] at hnd; exact (List.nodup_cons.mp hnd).2) p h1))
      simp only [Store.get?, if_neg hne]
      exact ih (by rw [blobNames_cons] at hnd; exact (List.nodup_cons.mp hnd).2) p h1

theorem downloadAll_pairs (s : Store) :
    ∀ l : List (String × Blob), (∀ p ∈ l, s.get? p.1 = some p.2) →
    downloadAll s (l.map (fun p => p.1)) =
      .ok (concatAll (l.map (fun p => p.2.content))) := by
  intro l
  induction l with
  | nil => intro _; rfl
  | cons p rest ih =>
    intro hall
    obtain ⟨m, c⟩ := p
    have hm : s.get? m = some c := hall (m, c) (List.mem_cons_self _ _)
    have hr := ih (fun p hp => hall p (List.mem_cons_of_mem _ hp))
    simp only [List.map_cons]
    unfold downloadAll
    rw [hm, hr]
    rfl

theorem downloadAll_metaNames (s : Store) (hnd : (blobNames s).Nodup) :
    downloadAll s (metaNames s) = .ok (specIndexBuffer s) := by
  unfold metaNames specIndexBuffer
  rw [filter_names_eq]
  exact downloadAll_pairs s _
    (fun p hp => get?_of_nodup s hnd p (List.mem_of_mem_filter hp))

theorem downloadAll_mem_split (s : Store) :
    ∀ (ns : List String) (n : String) (b : Blob) (buf : String),
    n ∈ ns → s.get? n = some b → downloadAll s ns = .ok buf →
    ∃ pre post, buf = pre ++ b.content ++ post := by
  intro ns
  induction ns with
  | nil => intro n b buf hmem; simp at hmem
  | cons m rest ih =>
    intro n b buf hmem hget h
    unfold downloadAll at h
    cases hg : s.get? m with
    | none => rw [hg] at h; simp at h
    | some c =>
      rw [hg] at h
      simp only at h
      cases hd : downloadAll s rest with
      | error e => rw [hd] at h; simp at h
      | ok tail =>
        rw [hd] at h
        simp only [Except.ok.injEq] at h
        rcases List.mem_cons.mp hmem with h1 | h1
        · refine ⟨"", tail, ?_⟩
          rw [← h]
          rw [← h1] at hg
          rw [hget] at hg
          have : b = c := by injection hg
          rw [this, String.empty_append]
        · obtain ⟨pre, post, hsplit⟩ := ih n b tail h1 hget hd
          refine ⟨c.content ++ pre, post, ?_⟩
          rw [← h, hsplit]
          simp [String.append_assoc]

theorem create_packages_of_downloadAll (compress : String → String) (s : Store)
    (buf : String) (h : downloadAll s (metaNames s) = .ok buf) :
    create_packages compress s =
      .ok (((s.upload "Packages" ⟨buf, "", []⟩).upload
              "Packages.xz" ⟨compress buf, "", []⟩),
           ["Packages", "Packages.xz"]) := by
  unfold create_packages
  rw [h]

theorem create_packages_ok_buf (compress : String → String) (s s2 : Store)
    (w : List String) (h : create_packages compress s = .ok (s2, w)) :
    ∃ buf, downloadAll s (metaNames s) = .ok buf ∧
      s2 = ((s.upload "Packages" ⟨buf, "", []⟩).upload
              "Packages.xz" ⟨compress buf, "", []⟩) ∧
      w = ["Packages", "Packages.xz"] := by
  unfold create_packages at h
  cases hd : downloadAll s (metaNames s) with
  | error e => rw [hd] at h; simp at h
  | ok buf =>
    rw [hd] at h
    simp only [Except.ok.injEq, Prod.mk.injEq] at h
    exact ⟨buf, rfl, h.1.symm, h.2.symm⟩

/- Effect of uploads on the name filters and the index buffer -/

theorem filter_pairs_upload_false (q : String → Bool) (n : String) (b : Blob)
    (hq : q n = false) :
    ∀ s : Store, (s.upload n b).filter (fun p => q p.1) =
      s.filter (fun p => q p.1) := by
  intro s
  induction s with
  | nil => simp [Store.upload, List.filter_cons, hq]
  | cons p rest ih =>
    obtain ⟨m, c⟩ := p
    by_cases hm : m = n
    · subst hm
      simp [Store.upload, List.filter_cons, hq]
    · simp [Store.upload, hm, List.filter_cons, ih]

theorem filter_names_upload_false (q : String → Bool) (n : String) (b : Blob)
    (hq : q n = false) (s : Store) :
    (blobNames (s.upload n b)).filter q = (blobNames s).filter q := by
  rw [filter_names_eq, filter_names_eq, filter_pairs_upload_false q n b hq]

theorem debNames_upload (n : String) (b : Blob) (s : Store)
    (hq : strEndsWith n ".deb" = false) :
    debNames (s.upload n b) = debNames s :=
  filter_names_upload_false _ n b hq s

theorem metaNames_upload (n : String) (b : Blob) (s : Store)
    (hq : strEndsWith n ".package" = false) :
    metaNames (s.upload n b) = metaNames s :=
  filter_names_upload_false _ n b hq s

theorem specIndexBuffer_upload (n : String) (b : Blob) (s : Store)
    (hq : strEndsWith n ".package" = false) :
    specIndexBuffer (s.upload n b) = specIndexBuffer s := by
  unfold specIndexBuffer
  rw [filter_pairs_upload_false (fun x => strEndsWith x ".package") n b hq s]

theorem packages_not_deb : strEndsWith "Packages" ".deb" = false := by decide

theorem packages_xz_not_deb : strEndsWith "Packages.xz" ".deb" = false := by decide

theorem packages_not_meta : strEndsWith "Packages" ".package" = false := by decide

theorem packages_xz_not_meta : strEndsWith "Packages.xz" ".package" = false := by
  decide

/- Claim theorems -/

/-- C1: after create_packages succeeds on any store (with distinct object
names, as a blob container guarantees), the Packages object equals the
concatenation, in store enumeration order, of the contents of every object
whose name ends with ".package", and Packages.xz is the compression of that
same buffer, decompressing back to it; both are uploaded with unconditional
overwrite (the conclusion holds whatever the prior Packages / Packages.xz
objects held), and with zero metadata objects the buffer is empty and both
index objects are still uploaded. -/
theorem create_packages_index_correct
    (compress decompress : String → String)
    (hround : ∀ buf, decompress (compress buf) = buf)
    (s : Store) (hnd : (blobNames s).Nodup) :
    ∃ s2, create_packages compress s = .ok (s2, ["Packages", "Packages.xz"]) ∧
      (∃ pb, s2.get? "Packages" = some pb ∧ pb.content = specIndexBuffer s) ∧
      (∃ xb, s2.get? "Packages.xz" = some xb ∧
        xb.content = compress (specIndexBuffer s) ∧
        decompress xb.content = specIndexBuffer s) ∧
      (metaNames s = [] → specIndexBuffer s = "") := by
  have hd := downloadAll_metaNames s hnd
  refine ⟨_, create_packages_of_downloadAll compress s _ hd, ?_, ?_, ?_⟩
  · refine ⟨⟨specIndexBuffer s, "", []⟩, ?_, rfl⟩
    rw [get?_upload_ne _ "Packages.xz" "Packages" _ (by decide)]
    exact get?_upload_eq _ "Packages" _
  · exact ⟨⟨compress (specIndexBuffer s), "", []⟩,
      get?_upload_eq _ "Packages.xz" _, rfl, hround _⟩
  · intro hempty
    unfold specIndexBuffer
    unfold metaNames at hempty
    rw [filter_names_eq] at hempty
    rw [List.map_eq_nil_iff.mp hempty]
    rfl

/-- C1 witness: the theorem instantiated with the identity compressor on the
empty store, exercising in particular the zero-metadata-objects branch. -/
theorem create_packages_index_correct_witness :
    (blobNames ([] : Store)).Nodup ∧
    (∃ s2, create_packages id ([] : Store) =
        .ok (s2, ["Packages", "Packages.xz"]) ∧
      (∃ pb, s2.get? "Packages" = some pb ∧
        pb.content = specIndexBuffer ([] : Store)) ∧
      (∃ xb, s2.get? "Packages.xz" = some xb ∧
        xb.content = id (specIndexBuffer ([] : Store)) ∧
        id xb.content = specIndexBuffer ([] : Store)) ∧
      (metaNames ([] : Store) = [] → specIndexBuffer ([] : Store) = "")) :=
  ⟨List.nodup_nil,
   create_packages_index_correct id id (fun buf => rfl) [] List.nodup_nil⟩

/-- C9: the Scanner only processes names ending in ".deb" and the Assembler
only concatenates names ending in ".package", so the index objects Packages
and Packages.xz are never in either working list; moreover rebuilding the
index changes neither list nor the index buffer a rebuild would produce. -/
theorem index_not_self_referential (compress : String → String)
    (s s2 : Store) (w : List String)
    (h : create_packages compress s = .ok (s2, w)) :
    (∀ n, n ∈ debNames s → n ≠ "Packages" ∧ n ≠ "Packages.xz") ∧
    (∀ n, n ∈ metaNames s → n ≠ "Packages" ∧ n ≠ "Packages.xz") ∧
    debNames s2 = debNames s ∧ metaNames s2 = metaNames s ∧
    specIndexBuffer s2 = specIndexBuffer s := by
  obtain ⟨buf, hd, hs2, hw⟩ := create_packages_ok_buf compress s s2 w h
  refine ⟨?_, ?_, ?_, ?_, ?_⟩
  · intro n hn
    have hdeb : strEndsWith n ".deb" = true := (List.mem_filter.mp hn).2
    constructor
    · intro he; rw [he] at hdeb; exact absurd hdeb (by decide)
    · intro he; rw [he] at hdeb; exact absurd hdeb (by decide)
  · intro n hn
    have hm : strEndsWith n ".package" = true := (List.mem_filter.mp hn).2
    constructor
    · intro he; rw [he] at hm; exact absurd hm (by decide)
    · intro he; rw [he] at hm; exact absurd hm (by decide)
  · rw [hs2, debNames_upload _ _ _ packages_xz_not_deb,
      debNames_upload _ _ _ packages_not_deb]
  · rw [hs2, metaNames_upload _ _ _ packages_xz_not_meta,
      metaNames_upload _ _ _ packages_not_meta]
  · rw [hs2, specIndexBuffer_upload _ _ _ packages_xz_not_meta,
      specIndexBuffer_upload _ _ _ packages_not_meta]

/-- C9 witness: the theorem instantiated on a one-package store with a
metadata record present. -/
theorem index_not_self_referential_witness :
    create_packages id store1b =
      .ok (((store1b.upload "Packages" ⟨specIndexBuffer store1b, "", []⟩).upload
              "Packages.xz" ⟨id (specIndexBuffer store1b), "", []⟩),
           ["Packages", "Packages.xz"]) ∧
    ((∀ n, n ∈ debNames store1b → n ≠ "Packages" ∧ n ≠ "Packages.xz") ∧
     (∀ n, n ∈ metaNames store1b → n ≠ "Packages" ∧ n ≠ "Packages.xz") ∧
     debNames (((store1b.upload "Packages"
         ⟨specIndexBuffer store1b, "", []⟩).upload
           "Packages.xz" ⟨id (specIndexBuffer store1b), "", []⟩)) =
       debNames store1b ∧
     metaNames (((store1b.upload "Packages"
         ⟨specIndexBuffer store1b, "", []⟩).upload
           "Packages.xz" ⟨id (specIndexBuffer store1b), "", []⟩)) =
       metaNames store1b ∧
     specIndexBuffer (((store1b.upload "Packages"
         ⟨specIndexBuffer store1b, "", []⟩).upload
           "Packages.xz" ⟨id (specIndexBuffer store1b), "", []⟩)) =
       specIndexBuffer store1b) := by
  constructor
  · rfl
  · exact index_not_self_referential id store1b _ _ (by rfl)

/-- C2: after a successful check on a package artifact, a metadata record
exists at the artifact path with extension replaced by ".package", it
carries the DebLastModified tag, and the tag value equals the artifact's
current last-modified value (the artifact itself is untouched by check). -/
theorem check_establishes_validity (ext : String → Except Unit ControlInfo)
    (s : Store) (name : String) (pkg : Blob) (s1 : Store) (w1 : List String)
    (hdeb : strEndsWith name ".deb" = true)
    (hp : s.get? name = some pkg)
    (h : check ext s name = .ok (s1, w1)) :
    s1.get? name = some pkg ∧
    ∃ mb, s1.get? (withSuffix name ".package") = some mb ∧
      lookupMeta mb.metadata DEB_CHECK_KEY = some pkg.lastModified :=
  check_ok_valid ext s name pkg s1 w1 hdeb hp h

/-- C2 witness: the theorem applied to a one-package store with no
metadata record; check creates the record and the invariant holds. -/
theorem check_establishes_validity_witness :
    (strEndsWith "a.deb" ".deb" = true ∧
     store1.get? "a.deb" = some pkgA ∧
     check ext0 store1 "a.deb" = .ok (store1b, ["a.package"])) ∧
    (store1b.get? "a.deb" = some pkgA ∧
     ∃ mb, store1b.get? (withSuffix "a.deb" ".package") = some mb ∧
       lookupMeta mb.metadata DEB_CHECK_KEY = some pkgA.lastModified) :=
  ⟨⟨by decide, by decide, by rfl⟩,
   check_establishes_validity ext0 store1 "a.deb" pkgA store1b ["a.package"]
     (by decide) (by decide) (by rfl)⟩

/-- C3: check recomputes the metadata record exactly when the record is
absent, lacks the DebLastModified tag, or carries a tag value differing by
string equality from the artifact's last-modified value (needsRecompute,
written from the claim); when recomputation happens check behaves as
createMetadata, and on success the record at the .package path is freshly
derived from the artifact's current content; when no condition holds the
store is returned untouched with no writes. -/
theorem check_recompute_condition (ext : String → Except Unit ControlInfo)
    (s : Store) (name : String) (pkg : Blob)
    (hp : s.get? name = some pkg) :
    (needsRecompute s name pkg = false → check ext s name = .ok (s, [])) ∧
    (needsRecompute s name pkg = true →
      check ext s name = createMetadata ext s name ∧
      ∀ ci, ext pkg.content = .ok ci →
        check ext s name =
          .ok (s.upload (withSuffix name ".package")
                ⟨recordBody name ci, "", [(DEB_CHECK_KEY, pkg.lastModified)]⟩,
              [withSuffix name ".package"])) := by
  constructor
  · intro hr
    exact check_of_valid ext s name pkg hp hr
  · intro hr
    refine ⟨check_of_recompute ext s name pkg hp hr, ?_⟩
    intro ci hci
    rw [check_of_recompute ext s name pkg hp hr,
      createMetadata_eq ext s name pkg hp, hci]

/-- C3 witness: the theorem applied to a store whose metadata record is
stale (tag differs from the package's last-modified value): check
overwrites the record with fresh digests from the current content. -/
theorem check_recompute_condition_witness :
    store1s.get? "a.deb" = some pkgA ∧
    needsRecompute store1s "a.deb" pkgA = true ∧
    ext0 pkgA.content = .ok ci0 ∧
    check ext0 store1s "a.deb" =
      .ok (store1s.upload (withSuffix "a.deb" ".package")
            ⟨recordBody "a.deb" ci0, "", [(DEB_CHECK_KEY, pkgA.lastModified)]⟩,
          [withSuffix "a.deb" ".package"]) :=
  ⟨by decide, by decide, by rfl,
   ((check_recompute_condition ext0 store1s "a.deb" pkgA (by decide)).2
     (by decide)).2 ci0 (by rfl)⟩

/-- C4: check is idempotent on an unchanged artifact: after a first
successful check the artifact is untouched, and a second check returns the
identical store (hence a byte-identical metadata record) with an empty
write log (zero store-write operations). -/
theorem check_idempotent (ext : String → Except Unit ControlInfo)
    (s : Store) (name : String) (pkg : Blob) (s1 : Store) (w1 : List String)
    (hdeb : strEndsWith name ".deb" = true)
    (hp : s.get? name = some pkg)
    (h : check ext s name = .ok (s1, w1)) :
    s1.get? name = some pkg ∧ check ext s1 name = .ok (s1, []) := by
  obtain ⟨hpkg, mb, hmb, hlk⟩ := check_ok_valid ext s name pkg s1 w1 hdeb hp h
  exact ⟨hpkg, check_of_valid ext s1 name pkg hpkg
    (not_recompute_of_valid s1 name pkg mb hmb hlk)⟩

/-- C4 witness: after check creates the missing record on a one-package
store, re-running check leaves the store identical and writes nothing. -/
theorem check_idempotent_witness :
    (strEndsWith "a.deb" ".deb" = true ∧
     store1.get? "a.deb" = some pkgA ∧
     check ext0 store1 "a.deb" = .ok (store1b, ["a.package"])) ∧
    (store1b.get? "a.deb" = some pkgA ∧
     check ext0 store1b "a.deb" = .ok (store1b, [])) :=
  ⟨⟨by decide, by decide, by rfl⟩,
   check_idempotent ext0 store1 "a.deb" pkgA store1b ["a.package"]
     (by decide) (by decide) (by rfl)⟩

/-- C5 counterexample: on a store whose first listed package is corrupt and
whose second is fine, the Scanner pass does not catch the extraction error:
check_metadata aborts with corruptPackage instead of completing, so the
second package is never checked — refuting the claim that the error is
caught at the per-artifact boundary and remaining packages are still
checked. -/
theorem scanner_does_not_catch_extraction_error :
    check_metadata ext0 storeC = .error .corruptPackage ∧
    ¬∃ s1 w, check_metadata ext0 storeC = .ok (s1, w) := by
  constructor
  · rfl
  · intro hex
    obtain ⟨s1, w, hok⟩ := hex
    rw [show check_metadata ext0 storeC = .error .corruptPackage from rfl] at hok
    exact absurd hok (by simp)

/-- C5 amended: an extraction error raised while processing one package is
NOT caught by the Scanner: it propagates out of check_metadata, aborting
the whole pass, so the packages listed after the failing one are not
checked. -/
theorem scanner_error_propagation (ext : String → Except Unit ControlInfo)
    (s : Store) (n : String) (rest : List String) (e : RepoError)
    (hd : debNames s = n :: rest)
    (hc : check ext s n = .error e) :
    check_metadata ext s = .error e := by
  unfold check_metadata
  rw [hd]
  exact checkList_error_head ext s n rest e hc

/-- C5 witness: the amended theorem applied to the two-package store with a
corrupt first package. -/
theorem scanner_error_propagation_witness :
    (debNames storeC = "a.deb" :: ["b.deb"] ∧
     check ext0 storeC "a.deb" = .error .corruptPackage) ∧
    check_metadata ext0 storeC = .error .corruptPackage :=
  ⟨⟨by decide, by rfl⟩,
   scanner_error_propagation ext0 storeC "a.deb" ["b.deb"] .corruptPackage
     (by decide) (by rfl)⟩

/-- A string always ends with the suffix just appended to it. -/
theorem strEndsWith_append (x y : String) : strEndsWith (x ++ y) y = true := by
  rw [strEndsWith_iff, String.data_append]
  exact List.suffix_append x.data y.data

/-- C6: every metadata record body produced by createMetadata is exactly
the artifact's control text with trailing whitespace trimmed, followed by
the five lines Filename, MD5sum, SHA1, SHA256, Size, terminated by two
trailing newlines. -/
theorem createMetadata_record_shape (ext : String → Except Unit ControlInfo)
    (s : Store) (name : String) (pkg : Blob) (ci : ControlInfo)
    (s1 : Store) (w1 : List String)
    (hp : s.get? name = some pkg)
    (hci : ext pkg.content = .ok ci)
    (h : createMetadata ext s name = .ok (s1, w1)) :
    ∃ mb, s1.get? (withSuffix name ".package") = some mb ∧
      mb.content =
        pyRstrip ci.controlStr ++ "\nFilename: " ++ name ++ "\nMD5sum: " ++
          ci.md5 ++ "\nSHA1: " ++ ci.sha1 ++ "\nSHA256: " ++ ci.sha256 ++
          "\nSize: " ++ toString ci.filesize ++ "\n\n" ∧
      strEndsWith mb.content "\n\n" = true := by
  rw [createMetadata_eq ext s name pkg hp, hci] at h
  simp only [Except.ok.injEq, Prod.mk.injEq] at h
  refine ⟨⟨recordBody name ci, "", [(DEB_CHECK_KEY, pkg.lastModified)]⟩,
    ?_, rfl, strEndsWith_append _ _⟩
  rw [← h.1]
  exact get?_upload_eq s _ _

/-- C6 witness: the theorem applied to the concrete one-package store. -/
theorem createMetadata_record_shape_witness :
    (store1.get? "a.deb" = some pkgA ∧ ext0 pkgA.content = .ok ci0 ∧
     createMetadata ext0 store1 "a.deb" = .ok (store1b, ["a.package"])) ∧
    (∃ mb, store1b.get? (withSuffix "a.deb" ".package") = some mb ∧
      mb.content =
        pyRstrip ci0.controlStr ++ "\nFilename: " ++ "a.deb" ++ "\nMD5sum: " ++
          ci0.md5 ++ "\nSHA1: " ++ ci0.sha1 ++ "\nSHA256: " ++ ci0.sha256 ++
          "\nSize: " ++ toString ci0.filesize ++ "\n\n" ∧
      strEndsWith mb.content "\n\n" = true) :=
  ⟨⟨by decide, by rfl, by rfl⟩,
   createMetadata_record_shape ext0 store1 "a.deb" pkgA ci0 store1b
     ["a.package"] (by decide) (by rfl) (by rfl)⟩

/-- C7: the change-notification trigger is a no-op (store returned intact,
no writes) when the name is missing, empty, or does not end in ".deb"; when
it does end in ".deb" the trigger's result is exactly the full maintenance
pass (Scanner then Assembler over the whole container), which takes no
triggering name at all — the name acts only as a relevance filter. -/
theorem blob_trigger_dispatch (ext : String → Except Unit ControlInfo)
    (compress : String → String) (s : Store) :
    blob_trigger ext compress s none = .ok (s, []) ∧
    (∀ n, strEndsWith n ".deb" = false →
      blob_trigger ext compress s (some n) = .ok (s, [])) ∧
    (∀ n, n ≠ "" → strEndsWith n ".deb" = true →
      blob_trigger ext compress s (some n) = runMaintenance ext compress s) := by
  refine ⟨rfl, ?_, ?_⟩
  · intro n hdeb
    simp only [blob_trigger]
    by_cases he : n = ""
    · rw [if_pos he]
    · rw [if_neg he, hdeb]
      simp
  · intro n hne hdeb
    simp only [blob_trigger]
    rw [if_neg hne, hdeb]
    simp only [if_true]
    rfl

/-- C7 witness: the trigger no-ops on a non-package name and runs the full
maintenance pass on a package name. -/
theorem blob_trigger_dispatch_witness :
    (strEndsWith "notes.txt" ".deb" = false ∧
     blob_trigger ext0 id store1 (some "notes.txt") = .ok (store1, [])) ∧
    ("a.deb" ≠ "" ∧ strEndsWith "a.deb" ".deb" = true ∧
     blob_trigger ext0 id store1 (some "a.deb") =
       runMaintenance ext0 id store1) :=
  ⟨⟨by decide,
    (blob_trigger_dispatch ext0 id store1).2.1 "notes.txt" (by decide)⟩,
   ⟨by decide, by decide,
    (blob_trigger_dispatch ext0 id store1).2.2 "a.deb" (by decide) (by decide)⟩⟩

/-- C10: the event-grid trigger applies no relevance filter: whatever the
event identifier, it performs the identical full Scanner-then-Assembler
pass, so its result depends only on the store state, never on the event
(two runs with different events coincide). -/
theorem eventGridTrigger_event_independent (ext : String → Except Unit ControlInfo)
    (compress : String → String) (s : Store) (e1 e2 : String) :
    eventGridTrigger ext compress s e1 = eventGridTrigger ext compress s e2 ∧
    eventGridTrigger ext compress s e1 = runMaintenance ext compress s :=
  ⟨rfl, rfl⟩

/-- A successful maintenance pass decomposes into a successful Scanner pass
followed by a successful Assembler pass. -/
theorem runMaintenance_parts (ext : String → Except Unit ControlInfo)
    (compress : String → String) (s s2 : Store) (w : List String)
    (h : runMaintenance ext compress s = .ok (s2, w)) :
    ∃ s1 w1 w2, check_metadata ext s = .ok (s1, w1) ∧
      create_packages compress s1 = .ok (s2, w2) ∧ w = w1 ++ w2 := by
  unfold runMaintenance at h
  cases hc : check_metadata ext s with
  | error e => rw [hc] at h; simp at h
  | ok p =>
    obtain ⟨s1, w1⟩ := p
    rw [hc] at h
    simp only at h
    cases hp : create_packages compress s1 with
    | error e => rw [hp] at h; simp at h
    | ok p2 =>
      obtain ⟨s2x, w2⟩ := p2
      rw [hp] at h
      simp only [Except.ok.injEq, Prod.mk.injEq] at h
      exact ⟨s1, w1, w2, rfl, by rw [← h.1]; exact hp, h.2.symm⟩

/-- C8: no operation of a maintenance pass deletes an object, and a
metadata record whose owning package is absent (no checked .deb maps to its
path) survives the Scanner untouched and its contents are included in the
rebuilt Packages object. -/
theorem orphan_metadata_persists (ext : String → Except Unit ControlInfo)
    (compress : String → String) (s s2 : Store) (w : List String)
    (n : String) (b : Blob)
    (h : runMaintenance ext compress s = .ok (s2, w))
    (hn : strEndsWith n ".package" = true)
    (hb : s.get? n = some b)
    (horph : ∀ d ∈ debNames s, withSuffix d ".package" ≠ n) :
    (∀ m, s.existsB m = true → s2.existsB m = true) ∧
    ∃ pb pre post, s2.get? "Packages" = some pb ∧
      pb.content = pre ++ b.content ++ post := by
  obtain ⟨s1, w1, w2, hc, hcp, hw⟩ := runMaintenance_parts ext compress s s2 w h
  obtain ⟨buf, hdl, hs2, hw2⟩ := create_packages_ok_buf compress s1 s2 w2 hcp
  constructor
  · intro m hm
    have h1 : s1.existsB m = true :=
      checkList_preserves_existsB ext (debNames s) s s1 w1 m hc hm
    rw [hs2]
    exact existsB_upload _ _ _ _ (existsB_upload _ _ _ _ h1)
  · have hget1 : s1.get? n = some b := by
      rw [checkList_preserves_get ext (debNames s) s s1 w1 n hc horph]
      exact hb
    have hmem : n ∈ metaNames s1 :=
      List.mem_filter.mpr ⟨mem_blobNames_of_get? s1 n b hget1, hn⟩
    obtain ⟨pre, post, hsplit⟩ :=
      downloadAll_mem_split s1 (metaNames s1) n b buf hmem hget1 hdl
    refine ⟨⟨buf, "", []⟩, pre, post, ?_, hsplit⟩
    rw [hs2, get?_upload_ne _ "Packages.xz" "Packages" _ (by decide)]
    exact get?_upload_eq _ "Packages" _

/-- C8 witness: a store holding only an orphaned metadata record; the pass
keeps it and its stanza appears in the rebuilt Packages object. -/
theorem orphan_metadata_persists_witness :
    (runMaintenance ext0 id storeO =
      .ok (((storeO.upload "Packages" ⟨"Stanza\n\n", "", []⟩).upload
              "Packages.xz" ⟨"Stanza\n\n", "", []⟩),
           ["Packages", "Packages.xz"]) ∧
     strEndsWith "orphan.package" ".package" = true ∧
     storeO.get? "orphan.package" = some ⟨"Stanza\n\n", "", []⟩ ∧
     (∀ d ∈ debNames storeO, withSuffix d ".package" ≠ "orphan.package")) ∧
    ((∀ m, storeO.existsB m = true →
        (((storeO.upload "Packages" ⟨"Stanza\n\n", "", []⟩).upload
            "Packages.xz" ⟨"Stanza\n\n", "", []⟩)).existsB m = true) ∧
     ∃ pb pre post,
       (((storeO.upload "Packages" ⟨"Stanza\n\n", "", []⟩).upload
           "Packages.xz" ⟨"Stanza\n\n", "", []⟩)).get? "Packages" = some pb ∧
       pb.content = pre ++ (Blob.mk "Stanza\n\n" "" []).content ++ post) :=
  ⟨⟨by rfl, by decide, by decide, by decide⟩,
   orphan_metadata_persists ext0 id storeO
     (((storeO.upload "Packages" ⟨"Stanza\n\n", "", []⟩).upload
         "Packages.xz" ⟨"Stanza\n\n", "", []⟩))
     ["Packages", "Packages.xz"] "orphan.package" ⟨"Stanza\n\n", "", []⟩
     (by rfl) (by decide) (by decide) (by decide)⟩
